import Mathlib

/-!
Verification development for the Primitives NFT sales bot (`main.py`).

The Python module is a sequential polling loop.  This file gives a shallow
embedding of the parts the claims are about:

* the price oracle `get_eth_price` (lines 50-84),
* the order-fills fallback strategy inside `fetch_recent_sales`
  (lines 197-234),
* the message formatter `format_sale_message` (lines 405-488),
* the per-record processing loop of `process_new_sales` (lines 490-546)
  together with the persisted processed-sales list (lines 40-48).

Modelling conventions:

* Python floats are modelled as `Rat`; all concrete inputs used below are
  exactly representable, so binary-float rounding never matters.
* JSON dictionary fields that the code reads with `.get` are modelled as
  `Option` values (`none` = key absent) or, where the code distinguishes
  an absent key from a JSON `null` value (because `None.get(...)` or
  `float(None)` raises), as small inductives with an explicit `null`
  constructor.
* Exceptions are modelled with `Except Unit`; a `try/except` boundary in
  the source corresponds to matching the `Except` value.
* Network calls are replaced by explicit parameters describing the
  responses (price-source outcomes, the fills list, publish outcomes).
-/

/-- The default `CONTRACT_ADDRESS` from line 16 (the environment override is
irrelevant to the claims; functions below take the target as a parameter). -/
def defaultContract : String := "0x424d781e0163b5a42ca2f27d036c2d5c561022c3"

/-- Models Python `str.lower()` (ASCII case folding; the contract strings the
program compares are ASCII hex addresses). -/
def lowerStr (s : String) : String := String.mk (s.data.map Char.toLower)

/-- Models Python f-string interpolation of a value that is either a string
or `None` (`None` prints as `"None"`). -/
def pyStr : Option String → String
  | some s => s
  | none => "None"

/-- Numeric value of a list of ASCII digits, most significant first. -/
def digitsVal (ds : List Char) : Nat :=
  ds.foldl (fun a c => a * 10 + (c.toNat - 48)) 0

/-- Models Python `int(s)` on a string: optional sign followed by digits.
(Surrounding whitespace and digit-group underscores, which `int` also
accepts, are not modelled; no claim exercises them.) -/
def pyIntParse (s : String) : Option Int :=
  let core : List Char → Option Nat := fun ds =>
    if ds.isEmpty then none
    else if ds.all (·.isDigit) then some (digitsVal ds) else none
  match s.data with
  | '+' :: ds => (core ds).map (fun n => (n : Int))
  | '-' :: ds => (core ds).map (fun n => -(n : Int))
  | ds => (core ds).map (fun n => (n : Int))

/-- Rational addition written out through `mkRat` (the library operations
carry an attribute that blocks kernel evaluation, so the model uses these
explicit forms; they compute the exact value of the corresponding Python
float operation on the exact inputs used in this file). -/
def radd (a b : Rat) : Rat := mkRat (a.num * (b.den : Int) + b.num * (a.den : Int)) (a.den * b.den)

/-- Rational subtraction through `mkRat`; see `radd`. -/
def rsub (a b : Rat) : Rat := mkRat (a.num * (b.den : Int) - b.num * (a.den : Int)) (a.den * b.den)

/-- Rational multiplication through `mkRat`; see `radd`. -/
def rmul (a b : Rat) : Rat := mkRat (a.num * b.num) (a.den * b.den)

/-- Rational negation through `mkRat`; see `radd`. -/
def rneg (a : Rat) : Rat := mkRat (-a.num) a.den

/-- Models Python `float(s)` on a string: optional sign, then digits with an
optional fractional part (`"1"`, `"1.5"`, `"1."`, `".5"`).  Exponent,
infinity and whitespace forms are not modelled; no claim exercises them. -/
def pyParseFloat (s : String) : Option Rat :=
  let core : List Char → Option Rat := fun cs =>
    let ip := cs.takeWhile (·.isDigit)
    let rest := cs.dropWhile (·.isDigit)
    match rest with
    | [] => if ip.isEmpty then none else some (mkRat (digitsVal ip : Int) 1)
    | '.' :: fr =>
      if fr.all (·.isDigit) ∧ ¬(ip.isEmpty ∧ fr.isEmpty) then
        some (radd (mkRat (digitsVal ip : Int) 1) (mkRat (digitsVal fr : Int) (10 ^ fr.length)))
      else none
    | _ => none
  match s.data with
  | '+' :: cs => core cs
  | '-' :: cs => (core cs).map rneg
  | cs => core cs

/-- Models `re.search(r'#(\d+)', name)` from line 445: scan left to right for
a `#` immediately followed by at least one digit and return the maximal
digit run after it. -/
def findHashDigits : List Char → Option (List Char)
  | [] => none
  | '#' :: rest =>
    match rest with
    | c :: _ => if c.isDigit then some (rest.takeWhile (·.isDigit)) else findHashDigits rest
    | [] => none
  | _ :: rest => findHashDigits rest

/-- Models `s.replace('Z', '+00:00')` from line 224 (every occurrence of the
single character `Z` is replaced). -/
def replaceZ (s : String) : String :=
  String.mk (s.data.foldr
    (fun c acc => if c = 'Z' then '+' :: '0' :: '0' :: ':' :: '0' :: '0' :: acc else c :: acc) [])

/-- Days since 1970-01-01 of a civil date (standard civil-from-days inverse). -/
def daysFromCivil (y : Int) (m : Int) (d : Int) : Int :=
  let y' := if m ≤ 2 then y - 1 else y
  let era := (if 0 ≤ y' then y' else y' - 399) / 400
  let yoe := y' - era * 400
  let mp := (m + 9) % 12
  let doy := (153 * mp + 2) / 5 + d - 1
  let doe := yoe * 365 + yoe / 4 - yoe / 100 + doy
  era * 146097 + doe - 719468

/-- Models `datetime.fromisoformat` restricted to the shapes the program can
meet: `YYYY-MM-DD`, optionally followed by one separator character and
`HH:MM:SS`, optionally followed by a `±HH:MM` offset.  Returns POSIX
seconds; a naive value is interpreted as UTC (the real `.timestamp()` uses
the local timezone, but no claim depends on the numeric value).  Fractional
seconds and per-month day-count validation are not modelled. -/
def pyFromIsoformat (s : String) : Option Int :=
  let d2 : Char → Char → Option Nat := fun a b =>
    if a.isDigit ∧ b.isDigit then some (digitsVal [a, b]) else none
  let d4 : Char → Char → Char → Char → Option Nat := fun a b c d =>
    if a.isDigit ∧ b.isDigit ∧ c.isDigit ∧ d.isDigit then some (digitsVal [a, b, c, d]) else none
  let dateVal : Nat → Nat → Nat → Option Int := fun y mo dy =>
    if 1 ≤ mo ∧ mo ≤ 12 ∧ 1 ≤ dy ∧ dy ≤ 31 then
      some (daysFromCivil (y : Int) (mo : Int) (dy : Int) * 86400)
    else none
  let timeVal : Nat → Nat → Nat → Option Int := fun h mi se =>
    if h ≤ 23 ∧ mi ≤ 59 ∧ se ≤ 59 then some ((h * 3600 + mi * 60 + se : Nat) : Int) else none
  match s.data with
  | [y1, y2, y3, y4, '-', m1, m2, '-', e1, e2] => do
    let y ← d4 y1 y2 y3 y4
    let mo ← d2 m1 m2
    let dy ← d2 e1 e2
    dateVal y mo dy
  | [y1, y2, y3, y4, '-', m1, m2, '-', e1, e2, _, h1, h2, ':', n1, n2, ':', s1, s2] => do
    let y ← d4 y1 y2 y3 y4
    let mo ← d2 m1 m2
    let dy ← d2 e1 e2
    let base ← dateVal y mo dy
    let t ← timeVal (← d2 h1 h2) (← d2 n1 n2) (← d2 s1 s2)
    pure (base + t)
  | [y1, y2, y3, y4, '-', m1, m2, '-', e1, e2, _, h1, h2, ':', n1, n2, ':', s1, s2,
     sg, o1, o2, ':', o3, o4] => do
    let y ← d4 y1 y2 y3 y4
    let mo ← d2 m1 m2
    let dy ← d2 e1 e2
    let base ← dateVal y mo dy
    let t ← timeVal (← d2 h1 h2) (← d2 n1 n2) (← d2 s1 s2)
    let oh ← d2 o1 o2
    let om ← d2 o3 o4
    if (sg = '+' ∨ sg = '-') ∧ oh ≤ 23 ∧ om ≤ 59 then
      let off : Int := (oh * 3600 + om * 60 : Nat)
      pure (base + t - (if sg = '+' then off else -off))
    else none
  | _ => none

/-- Floor of a rational (toward negative infinity). -/
def ratFloor (q : Rat) : Int := Int.fdiv q.num (q.den : Int)

/-- Round-half-even of a rational to an integer, matching the rounding used
by Python `format` on exact values (the binary-float artifacts of the real
`format` are not modelled; all concrete inputs below are exact). -/
def roundHalfEven (q : Rat) : Int :=
  let f := ratFloor q
  let r := rsub q (mkRat f 1)
  if r < mkRat 1 2 then f
  else if mkRat 1 2 < r then f + 1
  else if f % 2 = 0 then f else f + 1

/-- Left-pad a digit list with zeros to a given width. -/
def padZeros (w : Nat) (ds : List Char) : List Char :=
  List.replicate (w - ds.length) '0' ++ ds

/-- Insert a comma after every third character, counting from the right of
the reversed input (helper for the thousands separators of `f"{x:,.2f}"`). -/
def groupRev : List Char → List Char
  | a :: b :: c :: d :: rest => a :: b :: c :: ',' :: groupRev (d :: rest)
  | l => l

/-- Thousands grouping of a digit list, most significant first. -/
def groupThrees (ds : List Char) : List Char := (groupRev ds.reverse).reverse

/-- Character list of `f"{q:,.2f}"`: optional sign, comma-grouped integer
part, a dot, and exactly two fractional digits. -/
def fmt2cList (q : Rat) : List Char :=
  let c := roundHalfEven (rmul q (mkRat 100 1))
  let a := c.natAbs
  (if c < 0 then ['-'] else []) ++ groupThrees (Nat.toDigits 10 (a / 100))
    ++ '.' :: padZeros 2 (Nat.toDigits 10 (a % 100))

/-- Models `f"{q:.4f}"`: optional sign, integer part, a dot, four fractional
digits. -/
def fmt4 (q : Rat) : String :=
  let c := roundHalfEven (rmul q (mkRat 10000 1))
  let a := c.natAbs
  String.mk ((if c < 0 then ['-'] else []) ++ Nat.toDigits 10 (a / 10000)
    ++ '.' :: padZeros 4 (Nat.toDigits 10 (a % 10000)))

/-- Lines 466-471: `usd_formatted` is the computed `f"${usd:,.2f}"` when
`eth_price` is truthy, and the literal `"$???"` otherwise (a float is falsy
exactly when it is zero; NaN is not modelled). -/
def usdFormattedOf (rate : Rat) (ethAmount : Rat) : String :=
  if rate = 0 then "$???" else String.mk ('$' :: fmt2cList (rmul ethAmount rate))

/-- Shape of one price-source JSON body, as inspected at lines 67-72:
either the CoinGecko shape (`data["ethereum"]["usd"]`), the CryptoCompare
shape (`data["USD"]`), or neither recognized field. -/
inductive PriceShape
  | ethereum (p : Rat)
  | usd (p : Rat)
  | other
deriving DecidableEq

/-- Outcome of one price-source request: a raised exception (request error,
JSON error or field-access error, all caught by the `except` at line 76), or
a response with a status code and body shape. -/
inductive PriceOutcome
  | error
  | resp (status : Nat) (shape : PriceShape)
deriving DecidableEq

/-- `get_eth_price` (lines 50-84): try each source in order, return the
first recognized price from a 200 response, and fall back to the constant
`1825.00` when every source fails.  The deployed list has two sources; the
model takes the per-source outcomes as a list. -/
def get_eth_price : List PriceOutcome → Rat
  | [] => 1825
  | o :: rest =>
    match o with
    | .error => get_eth_price rest
    | .resp status shape =>
      if status = 200 then
        match shape with
        | .ethereum p => p
        | .usd p => p
        | .other => get_eth_price rest
      else get_eth_price rest

/-- Value found at `price["amount"]["decimal"]`: the key can be absent
(the `.get("decimal", 0)` default applies), JSON `null` (`float(None)`
raises), a number, or a string (parsed by `float`). -/
inductive DecimalField
  | absent
  | null
  | num (q : Rat)
  | str (s : String)
deriving DecidableEq

/-- Value found at `price["amount"]`: absent (`.get("amount", {})` default),
JSON `null` (the following `.get` raises), or an object. -/
inductive AmountField
  | absent
  | null
  | obj (decimal : DecimalField)
deriving DecidableEq

/-- Value found at `sale["price"]`: absent (`.get("price", {})` default),
JSON `null` (the following `.get` raises), or an object. -/
inductive PriceField
  | absent
  | null
  | obj (amount : AmountField)
deriving DecidableEq

/-- Value found at `token["collection"]`: absent (`.get("collection", {})`
default), JSON `null` (the following `.get("name")` raises), or an object
carrying its `name` field (the only field the formatter reads). -/
inductive CollectionField
  | absent
  | null
  | obj (name : Option String)
deriving DecidableEq

/-- The `token` object of a sale record, with the fields the program reads. -/
structure TokenObj where
  tokenId : Option String := none
  contract : Option String := none
  name : Option String := none
  collection : CollectionField := .absent
deriving DecidableEq

/-- Value found at `sale["token"]`: absent (`.get("token", {})` default),
JSON `null` (the following `.get` raises), or an object. -/
inductive TokenField
  | absent
  | null
  | obj (t : TokenObj)
deriving DecidableEq

/-- One discovered sale record, with the fields `process_new_sales` and
`format_sale_message` read.  `orderHash = none` models an absent key
(`sale.get("orderHash", "")` then yields `""`); a JSON `null` value for
`orderHash` is not distinguished, no claim exercises it. -/
structure PySale where
  id : Option String := none
  orderHash : Option String := none
  orderSide : Option String := none
  token : TokenField := .absent
  price : PriceField := .absent
  timestamp : Option Int := none
deriving DecidableEq

/-- `fill.get("price", 0)` can meet an absent key (default `0`), a JSON
`null` (`float(None)` raises), a number, or a string. -/
inductive FillPrice
  | absent
  | null
  | num (q : Rat)
  | str (s : String)
deriving DecidableEq

/-- One entry of the order-fills response (lines 199-226), with the fields
the conversion loop reads. -/
structure Fill where
  id : Option String := none
  contract : Option String := none
  orderHash : Option String := none
  tokenId : Option String := none
  tokenName : Option String := none
  collectionName : Option String := none
  price : FillPrice := .absent
  createdAt : Option String := none
deriving DecidableEq

/-- Line 413 and line 519: `sale.get("token", {})` followed by field reads.
An absent key defaults to the empty dict (every field read then yields
`None`); a JSON `null` makes the following `.get` raise `AttributeError`. -/
def getTokenField : TokenField → Except Unit TokenObj
  | .absent => .ok {}
  | .null => .error ()
  | .obj t => .ok t

/-- Line 427: `.get("collection", {}).get("name")`. -/
def getCollectionName : CollectionField → Except Unit (Option String)
  | .absent => .ok none
  | .null => .error ()
  | .obj n => .ok n

/-- Lines 462-463: `float(sale.get("price", {}).get("amount", {}).get("decimal", 0))`.
Absent keys default so that the amount becomes `0`; a JSON `null` at any
level raises; a string value is parsed by `float` (raising when
unparseable). -/
def ethAmountOf : PriceField → Except Unit Rat
  | .absent => .ok 0
  | .null => .error ()
  | .obj a =>
    match a with
    | .absent => .ok 0
    | .null => .error ()
    | .obj d =>
      match d with
      | .absent => .ok 0
      | .null => .error ()
      | .num q => .ok q
      | .str s =>
        match pyParseFloat s with
        | some q => .ok q
        | none => .error ()

/-- Lines 453-458: shorten a long raw token id to `first4...last4` (the
ternary keeps ids of length at most 8 unchanged; for strings the slicing
never raises, so the surrounding `try` is inert). -/
def shortenId (tid : String) : String :=
  if tid.data.length > 8 then
    String.mk (tid.data.take 4 ++ '.' :: '.' :: '.' :: tid.data.drop (tid.data.length - 4))
  else tid

/-- Lines 429-459: the display token id.  `display_id` starts as the raw
`token_id`; when `token_id` is truthy, an integer parse wins (stripping
leading zeros via `str(int(...))`); otherwise, only when the raw id is
longer than 10 characters, a truthy `token_name` is consulted (preferring
the digits of a `#<digits>` pattern) and, with no usable name, the id is
shortened to `first4...last4`. -/
def computeDisplayId (tokenId : Option String) (tokenName : Option String) : Option String :=
  match tokenId with
  | none => none
  | some tid =>
    if tid = "" then some tid
    else
      match pyIntParse tid with
      | some n => some (toString n)
      | none =>
        if tid.data.length > 10 then
          match tokenName with
          | some nm =>
            if nm ≠ "" then
              match findHashDigits nm.data with
              | some ds => some (String.mk ds)
              | none => some nm
            else some (shortenId tid)
          | none => some (shortenId tid)
        else some tid

/-- Lines 419-423 (and the identical check at line 523): the record is
rejected when its contract is truthy and differs case-insensitively from
the configured target. -/
def contractReject (target : String) : Option String → Bool
  | some c => c != "" && lowerStr c != lowerStr target
  | none => false

/-- Lines 425-483 of `format_sale_message`: everything after the contract
check.  Raising operations are sequenced in source order (collection
lookup, then price extraction); `get_eth_price` itself never raises. -/
def formatBodyE (outs : List PriceOutcome) (sale : PySale) (tok : TokenObj) :
    Except Unit String := do
  let tokenName := tok.name
  let collectionName ← getCollectionName tok.collection
  let displayId := computeDisplayId tok.tokenId tokenName
  let ethAmount ← ethAmountOf sale.price
  let ethPrice := get_eth_price outs
  let usdFormatted := usdFormattedOf ethPrice ethAmount
  let nftCollection :=
    match collectionName with
    | some c => if c ≠ "" then c else "Primitive"
    | none => "Primitive"
  let actionVerb := if sale.orderSide = some "bid" then "offer accepted for" else "bought for"
  pure (nftCollection ++ " #" ++ pyStr displayId ++ " " ++ actionVerb ++ " "
    ++ fmt4 ethAmount ++ " Ξ [" ++ usdFormatted
    ++ "]\n\n⤷https://opensea.io/assets/base/" ++ pyStr tok.contract ++ "/" ++ pyStr tok.tokenId)

/-- The formatter after its contract check passed: a raised exception is
caught at line 484 and becomes `None`. -/
def formatAfterCheck (outs : List PriceOutcome) (sale : PySale) (tok : TokenObj) : Option String :=
  match formatBodyE outs sale tok with
  | .ok m => some m
  | .error _ => none

/-- `format_sale_message` (lines 405-488): extract the token object (raising
on a JSON `null` token, caught by the boundary `except`), apply the
contract check (explicit `return None`), then run the rest with the
exception boundary. -/
def formatSaleMessage (target : String) (outs : List PriceOutcome) (sale : PySale) :
    Option String :=
  match getTokenField sale.token with
  | .error _ => none
  | .ok tok =>
    if contractReject target tok.contract then none
    else formatAfterCheck outs sale tok

/-- `float(fill.get("price", 0))` at line 221. -/
def pyFloatOfFillPrice : FillPrice → Except Unit Rat
  | .absent => .ok 0
  | .null => .error ()
  | .num q => .ok q
  | .str s =>
    match pyParseFloat s with
    | some q => .ok q
    | none => .error ()

/-- Line 224: the timestamp of a converted fill.  A truthy `createdAt` is
parsed with `fromisoformat` after replacing `Z` (an unparseable value
raises `ValueError`); a falsy or absent `createdAt` falls back to the
current time `now`. -/
def fillTimestamp (now : Int) : Option String → Except Unit Int
  | some s =>
    if s ≠ "" then
      match pyFromIsoformat (replaceZ s) with
      | some t => .ok t
      | none => .error ()
    else .ok now
  | none => .ok now

/-- Truthy-or default, modelling `fill.get("collectionName") or "Primitives"`
at line 213. -/
def pyOr (o : Option String) (d : String) : String :=
  match o with
  | some s => if s ≠ "" then s else d
  | none => d

/-- Lines 203-225: build the synthesized sale dict for one matching fill.
The dict literal is evaluated left to right; its `token.collection.id`
entry reads `COLLECTION_SLUG`, a name that is never defined anywhere in the
module, so the construction raises `NameError` before the price and
timestamp entries are ever evaluated.  The remaining entries are kept in
source order after that raise. -/
def buildFillSale (now : Int) (fill : Fill) : Except Unit PySale := do
  let _collectionId : String ← .error ()
  let priceDec ← pyFloatOfFillPrice fill.price
  let ts ← fillTimestamp now fill.createdAt
  pure
    { id := fill.id
      orderHash := fill.orderHash
      orderSide := some "bid"
      token := .obj
        { tokenId := fill.tokenId
          contract := fill.contract
          name := fill.tokenName
          collection := .obj (some (pyOr fill.collectionName "Primitives")) }
      price := .obj (.obj (.num priceDec))
      timestamp := some ts }

/-- Lines 198-226: the conversion loop over the fills response.  Each fill
whose `contract` equals the configured target by exact string comparison is
converted; a raise inside the loop propagates to the `except` at line 231
(modelled by the `Except` error). -/
def convertFills (target : String) (now : Int) : List Fill → Except Unit (List PySale)
  | [] => .ok []
  | f :: rest =>
    if f.contract = some target then
      match buildFillSale now f with
      | .error e => .error e
      | .ok s => (convertFills target now rest).map (fun l => s :: l)
    else convertFills target now rest

/-- Lines 197-242: the order-fills strategy outcome given the fills list of
a 200 response.  A raise is caught and logged; a non-empty converted list
would be returned; otherwise execution falls through to `return []`. -/
def fillsStrategy (target : String) (now : Int) (fills : List Fill) : List PySale :=
  match convertFills target now fills with
  | .error _ => []
  | .ok l => if l.isEmpty then [] else l

/-- `sale.get("orderHash", "")` at line 510. -/
def saleIdOf (sale : PySale) : String := sale.orderHash.getD ""

/-- State tracked for the processing loop: the in-memory
`processed_sales` list, the persisted file contents, and the ledger of
publish invocations `(sale_id, success)` in order. -/
structure CState where
  processed : List String
  saved : List String
  events : List (String × Bool)
deriving DecidableEq

/-- The environment of one run: configured target contract, the outcomes of
the price sources, and the outcome of each successive publish invocation
(`post_to_twitter` catches every exception and returns a boolean). -/
structure Env where
  target : String
  outs : List PriceOutcome
  pub : Nat → Bool

/-- Lines 536-543: post to Twitter and, only on success, append the id to
the in-memory list, persist it, and count the sale.  The image download at
line 533 never raises and does not affect this state. -/
def publishStep (env : Env) (st : CState) (sale : PySale) : Except CState CState :=
  if env.pub st.events.length then
    .ok { st with
      processed := st.processed ++ [saleIdOf sale]
      saved := st.processed ++ [saleIdOf sale]
      events := st.events ++ [(saleIdOf sale, true)] }
  else .ok { st with events := st.events ++ [(saleIdOf sale, false)] }

/-- Lines 508-543: one iteration of the `for sale in recent_sales` loop.
Order as in the source: dedup check on `orderHash` (line 513), token
extraction (line 519, raising on a JSON `null` token — this exception is
NOT caught and propagates out of `process_new_sales`, modelled by the
`error` result), contract check (line 523), formatting (line 528, `None`
skips), then publish.  The error result carries the state at the raise
(nothing was mutated before it). -/
def processSale (env : Env) (st : CState) (sale : PySale) : Except CState CState :=
  if saleIdOf sale ∈ st.processed then .ok st
  else
    match getTokenField sale.token with
    | .error _ => .error st
    | .ok tok =>
      if contractReject env.target tok.contract then .ok st
      else
        match formatSaleMessage env.target env.outs sale with
        | none => .ok st
        | some _ => publishStep env st sale

/-- The whole loop of `process_new_sales` over the discovered records; an
uncaught raise aborts the remaining records. -/
def processCycle (env : Env) (st : CState) : List PySale → Except CState CState
  | [] => .ok st
  | sale :: rest =>
    match processSale env st sale with
    | .ok st' => processCycle env st' rest
    | .error st' => .error st'

/-- Result of a multi-cycle run: final persisted file, publish ledger, and
whether the process crashed (which ends the `main` loop). -/
structure RunRes where
  file : List String
  events : List (String × Bool)
  crashed : Bool
deriving DecidableEq

/-- Several consecutive poll cycles within one process lifetime: each cycle
reloads `processed_sales` from the persisted file (line 497) and processes
its discovery batch; a crash stops the run. -/
def runCycles (env : Env) : List (List PySale) → List String → List (String × Bool) → RunRes
  | [], file, evs => ⟨file, evs, false⟩
  | batch :: rest, file, evs =>
    match processCycle env ⟨file, file, evs⟩ batch with
    | .ok st => runCycles env rest st.saved st.events
    | .error st => ⟨st.saved, st.events, true⟩

/-- State reached by a step or cycle, whether or not it raised. -/
def resState : Except CState CState → CState
  | .ok st => st
  | .error st => st

/-- Number of publish invocations whose dedup key is `h`. -/
def invoCount (h : String) (evs : List (String × Bool)) : Nat :=
  evs.countP (fun e => e.1 == h)

/-- Number of successful publishes whose dedup key is `h`. -/
def succCount (h : String) (evs : List (String × Bool)) : Nat :=
  evs.countP (fun e => e.1 == h && e.2)

/-- The display-id precedence exactly as claim C4 words it, read as a flat
ordered precedence: (a) integer parse; (b) raw id longer than 10 and
`#<digits>` in the name; (c) the name verbatim if present; (d)
`first4...last4` if longer than 8; (e) the raw id unmodified. -/
def displayIdSpecC4 (tid : String) (name : Option String) : String :=
  match pyIntParse tid with
  | some n => toString n
  | none =>
    match (if tid.data.length > 10 then name.bind (fun nm => findHashDigits nm.data) else none) with
    | some ds => String.mk ds
    | none =>
      match name with
      | some nm => nm
      | none => if tid.data.length > 8 then shortenId tid else tid

/-- The display-id rule as amended to match the code: clauses about the
token name and truncation apply only when the raw id exceeds 10
characters; a short non-integer id is used unmodified. -/
def displayIdAmendedC4 (tid : String) (name : Option String) : String :=
  match pyIntParse tid with
  | some n => toString n
  | none =>
    if tid.data.length > 10 then
      match name with
      | some nm =>
        if nm ≠ "" then
          match findHashDigits nm.data with
          | some ds => String.mk ds
          | none => nm
        else shortenId tid
      | none => shortenId tid
    else tid

/-- A price-source outcome that yields no usable price: a raised exception,
a non-200 status, or an unrecognized body shape. -/
def outcomeFails : PriceOutcome → Bool
  | .error => true
  | .resp status shape =>
    status != 200 || (match shape with | .other => true | _ => false)

/-- Invariant for the at-most-once argument: the file mirrors the in-memory
list, and the key `h` is either not yet stored (with no successful publish
recorded for it) or stored (with at most one). -/
def Jinv (h : String) (st : CState) : Prop :=
  st.saved = st.processed ∧
    ((h ∉ st.processed ∧ succCount h st.events = 0) ∨
     (h ∈ st.processed ∧ succCount h st.events ≤ 1))

/-- Invariant for the no-reprocessing argument: the key `h` is stored and no
publish invocation for it has been recorded. -/
def Kinv (h : String) (st : CState) : Prop :=
  st.saved = st.processed ∧ h ∈ st.processed ∧ invoCount h st.events = 0

/-- Invariant for duplicate-freeness of the store. -/
def Ninv (st : CState) : Prop := st.saved = st.processed ∧ st.processed.Nodup

/-- A run environment with one healthy price source and publishes that
always succeed, used by the concrete witnesses. -/
def envW : Env :=
  { target := defaultContract
    outs := [.resp 200 (.ethereum 2000)]
    pub := fun _ => true }

/-- Fresh state: nothing processed yet. -/
def cstEmpty : CState := ⟨[], [], []⟩

/-- State whose store already holds the empty-string key. -/
def cstEmptyKey : CState := ⟨[""], [""], []⟩

/-- A well-formed sale record for the target contract. -/
def saleW : PySale :=
  { orderHash := some "0xbb"
    token := .obj { tokenId := some "9", contract := some defaultContract } }

/-- A well-formed sale record with a missing `orderHash`. -/
def saleNoHash : PySale :=
  { orderHash := none
    orderSide := some "ask"
    token := .obj { tokenId := some "5", contract := some defaultContract }
    price := .obj (.obj (.num (mkRat 1 1))) }

/-- A sale record whose `price` key is entirely absent. -/
def sale6 : PySale :=
  { orderHash := some "0xh"
    token := .obj { tokenId := some "42", contract := some defaultContract } }

/-- A sale record whose `price` value is JSON `null` (formatting raises). -/
def saleNullPrice : PySale :=
  { orderHash := some "0xq"
    token := .obj { tokenId := some "1", contract := some defaultContract }
    price := .null }

/-- A sale record for a different contract. -/
def saleWrongContract : PySale :=
  { orderHash := some "0xw"
    token := .obj { tokenId := some "3", contract := some "0xdeadbeef" } }

/-- A sale record with a price of 1.5 ETH for the target contract. -/
def sale5 : PySale :=
  { orderHash := some "0xabc"
    orderSide := some "ask"
    token := .obj
      { tokenId := some "7"
        contract := some defaultContract
        name := none
        collection := .obj (some "Primitives") }
    price := .obj (.obj (.num (mkRat 3 2))) }

/-- A fill whose contract differs from the target "0xabc" only in case. -/
def fillUpper : Fill := { contract := some "0XABC" }

/-- A fill whose contract matches the target "0xabc" exactly. -/
def fillExact : Fill := { contract := some "0xabc", createdAt := none }

/-- A matching fill with an unparseable creation time. -/
def fillBadDate : Fill := { contract := some "0xabc", createdAt := some "not-a-date" }

/-- A matching fill with a parseable creation time. -/
def fillGoodDate : Fill :=
  { contract := some "0xabc", createdAt := some "2024-05-01T10:00:00Z", price := .num (mkRat 1 1) }

/-- Exhaustive shape of one loop iteration: the state is unchanged (skip by
dedup, contract mismatch or failed formatting, or the uncaught token raise),
or — only for a record whose id was absent from the store — one publish
event is recorded, appending to the store exactly on success. -/
theorem processSale_char (env : Env) (st : CState) (sale : PySale) :
    processSale env st sale = .ok st ∨ processSale env st sale = .error st ∨
      (saleIdOf sale ∉ st.processed ∧
        (processSale env st sale = .ok { st with events := st.events ++ [(saleIdOf sale, false)] } ∨
         processSale env st sale = .ok { st with
           processed := st.processed ++ [saleIdOf sale]
           saved := st.processed ++ [saleIdOf sale]
           events := st.events ++ [(saleIdOf sale, true)] })) := by
  unfold processSale
  by_cases hdup : saleIdOf sale ∈ st.processed
  · rw [if_pos hdup]
    exact Or.inl rfl
  · rw [if_neg hdup]
    cases htok : getTokenField sale.token with
    | error e => exact Or.inr (Or.inl rfl)
    | ok tok =>
      dsimp only
      by_cases hcm : contractReject env.target tok.contract = true
      · rw [if_pos hcm]
        exact Or.inl rfl
      · rw [if_neg hcm]
        cases hfmt : formatSaleMessage env.target env.outs sale with
        | none => exact Or.inl rfl
        | some msg =>
          dsimp only
          unfold publishStep
          by_cases hp : env.pub st.events.length = true
          · rw [if_pos hp]
            exact Or.inr (Or.inr ⟨hdup, Or.inr rfl⟩)
          · rw [if_neg hp]
            exact Or.inr (Or.inr ⟨hdup, Or.inl rfl⟩)

theorem succCount_app (h : String) (evs delta : List (String × Bool)) :
    succCount h (evs ++ delta) = succCount h evs + succCount h delta :=
  List.countP_append _ _ _

theorem succCount_single_false (h id : String) : succCount h [(id, false)] = 0 := by
  simp [succCount, List.countP_cons]

theorem succCount_single_true (h id : String) :
    succCount h [(id, true)] = if id = h then 1 else 0 := by
  by_cases hid : id = h <;> simp [succCount, List.countP_cons, hid]

theorem invoCount_app (h : String) (evs delta : List (String × Bool)) :
    invoCount h (evs ++ delta) = invoCount h evs + invoCount h delta :=
  List.countP_append _ _ _

theorem invoCount_single (h id : String) (b : Bool) :
    invoCount h [(id, b)] = if id = h then 1 else 0 := by
  by_cases hid : id = h <;> simp [invoCount, List.countP_cons, hid]

theorem Jinv_step (env : Env) (st : CState) (sale : PySale) (h : String) :
    Jinv h st → Jinv h (resState (processSale env st sale)) := by
  intro hJ
  rcases processSale_char env st sale with h1 | h1 | ⟨hnot, h1 | h1⟩ <;> rw [h1]
  · exact hJ
  · exact hJ
  · refine ⟨hJ.1, ?_⟩
    rcases hJ.2 with ⟨hm, hc⟩ | ⟨hm, hc⟩
    · exact Or.inl ⟨hm, by simp [resState, succCount_app, succCount_single_false, hc]⟩
    · exact Or.inr ⟨hm, by simp [resState, succCount_app, succCount_single_false]; omega⟩
  · constructor
    · simp [resState]
    · by_cases hid : saleIdOf sale = h
      · rcases hJ.2 with ⟨hm, hc⟩ | ⟨hm, hc⟩
        · refine Or.inr ⟨by simp [resState, hid], ?_⟩
          simp [resState, succCount_app, succCount_single_true, hid, hc]
        · exact absurd (hid ▸ hm) hnot
      · rcases hJ.2 with ⟨hm, hc⟩ | ⟨hm, hc⟩
        · refine Or.inl ⟨?_, ?_⟩
          · simp only [resState, List.mem_append, List.mem_singleton]
            rintro (hx | hx)
            · exact hm hx
            · exact hid hx.symm
          · simp [resState, succCount_app, succCount_single_true, hid, hc]
        · refine Or.inr ⟨by simp [resState, hm], ?_⟩
          simp [resState, succCount_app, succCount_single_true, hid]
          omega

theorem Jinv_cycle (env : Env) (h : String) :
    ∀ (sales : List PySale) (st : CState),
      Jinv h st → Jinv h (resState (processCycle env st sales)) := by
  intro sales
  induction sales with
  | nil => intro st hJ; exact hJ
  | cons s rest ih =>
    intro st hJ
    have hstep := Jinv_step env st s h hJ
    cases hps : processSale env st s with
    | ok st' =>
      rw [show processCycle env st (s :: rest) = processCycle env st' rest from by
        simp [processCycle, hps]]
      exact ih st' (by rwa [hps] at hstep)
    | error st' =>
      rw [show processCycle env st (s :: rest) = .error st' from by simp [processCycle, hps]]
      rwa [hps] at hstep

theorem Jinv_run (env : Env) (h : String) :
    ∀ (batches : List (List PySale)) (file : List String) (evs : List (String × Bool)),
      Jinv h ⟨file, file, evs⟩ → succCount h (runCycles env batches file evs).events ≤ 1 := by
  intro batches
  induction batches with
  | nil =>
    intro file evs hJ
    rcases hJ.2 with ⟨_, hc⟩ | ⟨_, hc⟩ <;> dsimp only at hc <;> simp [runCycles] <;> omega
  | cons b rest ih =>
    intro file evs hJ
    have hc := Jinv_cycle env h b ⟨file, file, evs⟩ hJ
    cases hcy : processCycle env ⟨file, file, evs⟩ b with
    | ok st =>
      rw [show runCycles env (b :: rest) file evs = runCycles env rest st.saved st.events from by
        simp [runCycles, hcy]]
      have hst : Jinv h st := by rwa [hcy] at hc
      refine ih st.saved st.events ⟨rfl, ?_⟩
      have h1 := hst.1
      rcases hst.2 with ⟨hm, hcnt⟩ | ⟨hm, hcnt⟩
      · exact Or.inl ⟨by simpa [h1] using hm, hcnt⟩
      · exact Or.inr ⟨by simpa [h1] using hm, hcnt⟩
    | error st =>
      rw [show runCycles env (b :: rest) file evs = ⟨st.saved, st.events, true⟩ from by
        simp [runCycles, hcy]]
      have hst : Jinv h st := by rwa [hcy] at hc
      rcases hst.2 with ⟨_, hcnt⟩ | ⟨_, hcnt⟩ <;> dsimp only at hcnt ⊢ <;> omega

theorem Kinv_step (env : Env) (st : CState) (sale : PySale) (h : String) :
    Kinv h st → Kinv h (resState (processSale env st sale)) := by
  intro hK
  rcases processSale_char env st sale with h1 | h1 | ⟨hnot, h1 | h1⟩ <;> rw [h1]
  · exact hK
  · exact hK
  · have hid : saleIdOf sale ≠ h := fun he => hnot (he ▸ hK.2.1)
    exact ⟨hK.1, hK.2.1, by simp [resState, invoCount_app, invoCount_single, hid, hK.2.2]⟩
  · have hid : saleIdOf sale ≠ h := fun he => hnot (he ▸ hK.2.1)
    refine ⟨by simp [resState], by simp [resState, hK.2.1], ?_⟩
    simp [resState, invoCount_app, invoCount_single, hid, hK.2.2]

theorem Kinv_cycle (env : Env) (h : String) :
    ∀ (sales : List PySale) (st : CState),
      Kinv h st → Kinv h (resState (processCycle env st sales)) := by
  intro sales
  induction sales with
  | nil => intro st hK; exact hK
  | cons s rest ih =>
    intro st hK
    have hstep := Kinv_step env st s h hK
    cases hps : processSale env st s with
    | ok st' =>
      rw [show processCycle env st (s :: rest) = processCycle env st' rest from by
        simp [processCycle, hps]]
      exact ih st' (by rwa [hps] at hstep)
    | error st' =>
      rw [show processCycle env st (s :: rest) = .error st' from by simp [processCycle, hps]]
      rwa [hps] at hstep

theorem Kinv_run (env : Env) (h : String) :
    ∀ (batches : List (List PySale)) (file : List String) (evs : List (String × Bool)),
      Kinv h ⟨file, file, evs⟩ → invoCount h (runCycles env batches file evs).events = 0 := by
  intro batches
  induction batches with
  | nil =>
    intro file evs hK
    have hc := hK.2.2
    dsimp only at hc
    simpa [runCycles] using hc
  | cons b rest ih =>
    intro file evs hK
    have hc := Kinv_cycle env h b ⟨file, file, evs⟩ hK
    cases hcy : processCycle env ⟨file, file, evs⟩ b with
    | ok st =>
      rw [show runCycles env (b :: rest) file evs = runCycles env rest st.saved st.events from by
        simp [runCycles, hcy]]
      have hst : Kinv h st := by rwa [hcy] at hc
      refine ih st.saved st.events ⟨rfl, ?_, ?_⟩
      · simpa [hst.1] using hst.2.1
      · exact hst.2.2
    | error st =>
      rw [show runCycles env (b :: rest) file evs = ⟨st.saved, st.events, true⟩ from by
        simp [runCycles, hcy]]
      have hst : Kinv h st := by rwa [hcy] at hc
      exact hst.2.2

theorem Ninv_step (env : Env) (st : CState) (sale : PySale) :
    Ninv st → Ninv (resState (processSale env st sale)) := by
  intro hN
  rcases processSale_char env st sale with h1 | h1 | ⟨hnot, h1 | h1⟩ <;> rw [h1]
  · exact hN
  · exact hN
  · exact ⟨hN.1, hN.2⟩
  · refine ⟨by simp [resState], ?_⟩
    simp only [resState]
    simp [List.nodup_append, hN.2, hnot]

theorem Ninv_cycle (env : Env) :
    ∀ (sales : List PySale) (st : CState),
      Ninv st → Ninv (resState (processCycle env st sales)) := by
  intro sales
  induction sales with
  | nil => intro st hN; exact hN
  | cons s rest ih =>
    intro st hN
    have hstep := Ninv_step env st s hN
    cases hps : processSale env st s with
    | ok st' =>
      rw [show processCycle env st (s :: rest) = processCycle env st' rest from by
        simp [processCycle, hps]]
      exact ih st' (by rwa [hps] at hstep)
    | error st' =>
      rw [show processCycle env st (s :: rest) = .error st' from by simp [processCycle, hps]]
      rwa [hps] at hstep

theorem evs_ne_append_singleton (evs : List (String × Bool)) (x : String × Bool) :
    ¬ (evs = evs ++ [x]) := by simp

theorem append_singleton_inj {evs : List (String × Bool)} {x y : String × Bool}
    (he : evs ++ [x] = evs ++ [y]) : x = y := by simpa using he

/-- Building a synthesized fill sale always raises: the record construction
reads the undefined module name `COLLECTION_SLUG`. -/
theorem buildFillSale_err (now : Int) (f : Fill) : buildFillSale now f = .error () := rfl

theorem convertFills_ok_nil (target : String) (now : Int) :
    ∀ (fills : List Fill) (l : List PySale), convertFills target now fills = .ok l → l = [] := by
  intro fills
  induction fills with
  | nil =>
    intro l h
    simpa [convertFills] using h.symm
  | cons f rest ih =>
    intro l h
    unfold convertFills at h
    by_cases hc : f.contract = some target
    · rw [if_pos hc, buildFillSale_err] at h
      simp at h
    · rw [if_neg hc] at h
      exact ih l h

theorem fillsStrategy_empty (target : String) (now : Int) (fills : List Fill) :
    fillsStrategy target now fills = [] := by
  unfold fillsStrategy
  cases hcf : convertFills target now fills with
  | error e => rfl
  | ok l =>
    rw [convertFills_ok_nil target now fills l hcf]
    rfl

theorem convertFills_all_skip (target : String) (now : Int) :
    ∀ fills : List Fill, (∀ f ∈ fills, f.contract ≠ some target) →
      convertFills target now fills = .ok [] := by
  intro fills
  induction fills with
  | nil => intro _; rfl
  | cons f rest ih =>
    intro hall
    unfold convertFills
    rw [if_neg (hall f (List.mem_cons_self f rest))]
    exact ih (fun g hg => hall g (List.mem_cons_of_mem f hg))

theorem convertFills_match_err (target : String) (now : Int) :
    ∀ fills : List Fill, (∃ f ∈ fills, f.contract = some target) →
      convertFills target now fills = .error () := by
  intro fills
  induction fills with
  | nil => rintro ⟨f, hf, _⟩; exact absurd hf (List.not_mem_nil f)
  | cons f rest ih =>
    rintro ⟨g, hg, hgc⟩
    unfold convertFills
    by_cases hc : f.contract = some target
    · rw [if_pos hc, buildFillSale_err]
    · rw [if_neg hc]
      rcases List.mem_cons.mp hg with he | hm
      · exact absurd (he ▸ hgc) hc
      · exact ih ⟨g, hm, hgc⟩

theorem dot_mem_fmt2cList (q : Rat) : '.' ∈ fmt2cList q := by
  unfold fmt2cList
  exact List.mem_append_right _ (List.mem_cons_self _ _)

theorem get_eth_price_all_fail :
    ∀ outs : List PriceOutcome, outs.all outcomeFails = true → get_eth_price outs = 1825 := by
  intro outs
  induction outs with
  | nil => intro _; rfl
  | cons o rest ih =>
    intro h
    rw [List.all_cons, Bool.and_eq_true] at h
    obtain ⟨h1, h2⟩ := h
    cases o with
    | error => simpa [get_eth_price] using ih h2
    | resp status shape =>
      unfold get_eth_price
      dsimp only
      by_cases hs : status = 200
      · rw [if_pos hs]
        cases shape with
        | ethereum p => simp [outcomeFails, hs] at h1
        | usd p => simp [outcomeFails, hs] at h1
        | other => exact ih h2
      · rw [if_neg hs]
        exact ih h2

/-- C1: for every non-empty `orderHash` already in the Dedup Store when a run
starts, no poll cycle of that run (within the same process lifetime) invokes
publish for a record with that hash; and across any run, publish succeeds at
most once per non-empty hash — so a hash that has been added is never
published again. -/
theorem dedup_store_at_most_once (env : Env) (batches : List (List PySale))
    (store : List String) (h : String) (hne : h ≠ "") :
    (h ∈ store → invoCount h (runCycles env batches store []).events = 0) ∧
    succCount h (runCycles env batches store []).events ≤ 1 := by
  constructor
  · intro hmem
    exact Kinv_run env h batches store [] ⟨rfl, hmem, rfl⟩
  · apply Jinv_run env h batches store []
    refine ⟨rfl, ?_⟩
    by_cases hmem : h ∈ store
    · exact Or.inr ⟨hmem, by simp [succCount]⟩
    · exact Or.inl ⟨hmem, rfl⟩

theorem dedup_store_at_most_once_witness :
    (("0xbb" : String) ≠ "") ∧
    (("0xbb" : String) ∈ ["0xbb"] → invoCount "0xbb" (runCycles envW [[saleW]] ["0xbb"] []).events = 0) ∧
    succCount "0xbb" (runCycles envW [[saleW]] ["0xbb"] []).events ≤ 1 :=
  ⟨by decide, dedup_store_at_most_once envW [[saleW]] ["0xbb"] "0xbb" (by decide)⟩

/-- C2 counterexample: with `""` already in the Dedup Store, a record with a
missing `orderHash` IS classified as a duplicate and skipped (no publish
event and no formatting), although it would format successfully — refuting
that empty-hash records are always reprocessed. -/
theorem empty_hash_cx :
    processSale envW cstEmptyKey saleNoHash = .ok cstEmptyKey ∧
    (formatSaleMessage envW.target envW.outs saleNoHash).isSome = true := by
  exact ⟨rfl, by decide⟩

/-- C2 amended: a record with an empty or missing `orderHash` is deduplicated
under the single key `""`: it is skipped exactly when `""` is already in the
in-memory list, and otherwise proceeds to the publish step like any other
record (so after one empty-hash record is published, later ones are treated
as duplicates). -/
theorem empty_hash_dedup (env : Env) (st : CState) (sale : PySale)
    (hid : saleIdOf sale = "") :
    ("" ∈ st.processed → processSale env st sale = .ok st) ∧
    ("" ∉ st.processed → ∀ tok, getTokenField sale.token = .ok tok →
      contractReject env.target tok.contract = false →
      ∀ msg, formatSaleMessage env.target env.outs sale = some msg →
      processSale env st sale = publishStep env st sale) := by
  constructor
  · intro hmem
    unfold processSale
    rw [hid, if_pos hmem]
  · intro hmem tok htok hcr msg hfmt
    unfold processSale
    rw [hid, if_neg hmem, htok]
    dsimp only
    rw [if_neg (by simp [hcr]), hfmt]

theorem empty_hash_dedup_witness :
    (saleIdOf saleNoHash = "") ∧
    processSale envW cstEmptyKey saleNoHash = .ok cstEmptyKey :=
  ⟨rfl, (empty_hash_dedup envW cstEmptyKey saleNoHash rfl).1 (by decide)⟩

/-- C3 counterexample: a fill whose contract differs from the target only in
letter case (so it matches case-insensitively) is NOT converted — the loop
compares with exact string equality and the strategy yields nothing. -/
theorem fills_case_cx :
    lowerStr "0XABC" = lowerStr "0xabc" ∧
    convertFills "0xabc" 0 [fillUpper] = .ok [] ∧
    fillsStrategy "0xabc" 0 [fillUpper] = [] := by
  exact ⟨by decide, rfl, rfl⟩

/-- C3 amended: the fills filter is exact, case-sensitive string equality, so
a case-differing fill is skipped outright; and a fill whose contract matches
exactly makes the record construction raise (it reads the undefined name
`COLLECTION_SLUG`), aborting the whole strategy — hence the fills strategy
never returns any records. -/
theorem fills_convert_amended (target : String) (now : Int) (fills : List Fill) :
    fillsStrategy target now fills = [] ∧
    ((∀ f ∈ fills, f.contract ≠ some target) → convertFills target now fills = .ok []) ∧
    ((∃ f ∈ fills, f.contract = some target) → convertFills target now fills = .error ()) :=
  ⟨fillsStrategy_empty target now fills,
   convertFills_all_skip target now fills,
   convertFills_match_err target now fills⟩

theorem fills_convert_amended_witness :
    ((∃ f ∈ [fillExact], f.contract = some "0xabc") →
      convertFills "0xabc" 0 [fillExact] = .error ()) ∧
    fillsStrategy "0xabc" 0 [fillExact] = [] :=
  ⟨(fills_convert_amended "0xabc" 0 [fillExact]).2.2,
   (fills_convert_amended "0xabc" 0 [fillExact]).1⟩

/-- C4 counterexample: under the claim's flat precedence a short non-integer
id with a token name would display as the name (clause c), and a 9-character
id with no name would be truncated (clause d); the code leaves both raw. -/
theorem display_id_cx :
    computeDisplayId (some "abc") (some "Shiny") = some "abc" ∧
    displayIdSpecC4 "abc" (some "Shiny") = "Shiny" ∧
    computeDisplayId (some "abcdefghi") none = some "abcdefghi" ∧
    displayIdSpecC4 "abcdefghi" none = "abcd...fghi" := by
  exact ⟨by decide, by decide, by decide, by decide⟩

/-- C4 amended: the name-extraction and truncation clauses apply only when
the raw id exceeds 10 characters; a non-integer id of at most 10 characters
is used unmodified.  The three concrete examples of the claim hold. -/
theorem display_id_amended :
    (∀ tid name, tid ≠ "" → computeDisplayId (some tid) name = some (displayIdAmendedC4 tid name)) ∧
    computeDisplayId (some "00042") none = some "42" ∧
    computeDisplayId (some "abcdefghjklmn") (some "Primitives #7") = some "7" ∧
    computeDisplayId (some "abcdefghijklmnopqrst") none = some "abcd...qrst" := by
  refine ⟨?_, by decide, by decide, by decide⟩
  intro tid name h
  unfold computeDisplayId displayIdAmendedC4
  dsimp only
  rw [if_neg h]
  cases hp : pyIntParse tid with
  | some n => simp only [hp]
  | none =>
    simp only [hp]
    by_cases hl : tid.data.length > 10
    · rw [if_pos hl, if_pos hl]
      cases name with
      | none => rfl
      | some nm =>
        dsimp only
        by_cases hnm : nm = ""
        · rw [if_neg (not_not_intro hnm), if_neg (not_not_intro hnm)]
        · rw [if_pos hnm, if_pos hnm]
          cases hf : findHashDigits nm.data <;> simp only [hf]
    · rw [if_neg hl, if_neg hl]

theorem display_id_amended_witness :
    (("00042" : String) ≠ "") ∧
    computeDisplayId (some "00042") none = some (displayIdAmendedC4 "00042" none) :=
  ⟨by decide, display_id_amended.1 "00042" none (by decide)⟩

set_option maxRecDepth 4000 in
/-- C5 counterexample: with every fiat source failing, the formatted message
carries a fiat amount computed from the hardcoded fallback rate 1825.0, not
the literal placeholder. -/
theorem fiat_fallback_cx :
    formatSaleMessage defaultContract [.error, .resp 500 .other] sale5 =
      some "Primitives #7 bought for 1.5000 Ξ [$2,737.50]\n\n⤷https://opensea.io/assets/base/0x424d781e0163b5a42ca2f27d036c2d5c561022c3/7" ∧
    ¬ ("$???".data <:+:
      "Primitives #7 bought for 1.5000 Ξ [$2,737.50]\n\n⤷https://opensea.io/assets/base/0x424d781e0163b5a42ca2f27d036c2d5c561022c3/7".data) := by
  exact ⟨by decide, by decide⟩

/-- C5 amended: when every fiat source fails, the oracle returns the
hardcoded fallback 1825.0 (it is never unavailable), and the fiat portion of
any formatted message is the amount computed at that rate — never the
literal placeholder, which is emitted only for a zero rate. -/
theorem fiat_fallback_amended (outs : List PriceOutcome)
    (hfail : outs.all outcomeFails = true) :
    get_eth_price outs = 1825 ∧
    ∀ q, usdFormattedOf (get_eth_price outs) q ≠ "$???" ∧
      usdFormattedOf (get_eth_price outs) q = String.mk ('$' :: fmt2cList (rmul q 1825)) := by
  have h1 := get_eth_price_all_fail outs hfail
  have hzero : (1825 : Rat) ≠ 0 := by norm_num
  refine ⟨h1, fun q => ⟨?_, ?_⟩⟩
  · rw [h1]
    unfold usdFormattedOf
    rw [if_neg hzero]
    intro he
    have hd : '$' :: fmt2cList (rmul q 1825) = "$???".data := congrArg String.data he
    have hlit : "$???".data = ['$', '?', '?', '?'] := rfl
    rw [hlit] at hd
    injection hd with _ htail
    have hdot := dot_mem_fmt2cList (rmul q 1825)
    rw [htail] at hdot
    simp at hdot
  · rw [h1]
    unfold usdFormattedOf
    rw [if_neg hzero]

theorem fiat_fallback_amended_witness :
    ([PriceOutcome.error, PriceOutcome.resp 404 .other].all outcomeFails = true) ∧
    get_eth_price [.error, .resp 404 .other] = 1825 ∧
    usdFormattedOf (get_eth_price [.error, .resp 404 .other]) (mkRat 3 2) ≠ "$???" :=
  ⟨by decide, (fiat_fallback_amended [.error, .resp 404 .other] (by decide)).1,
   ((fiat_fallback_amended [.error, .resp 404 .other] (by decide)).2 (mkRat 3 2)).1⟩

/-- C6 counterexample: a record whose `price` object is entirely absent does
NOT make the formatter return null — the missing fields default to an amount
of 0 and a message is produced and published. -/
theorem format_missing_price_cx :
    formatSaleMessage defaultContract [.resp 200 (.ethereum 2000)] sale6 =
      some "Primitive #42 bought for 0.0000 Ξ [$0.00]\n\n⤷https://opensea.io/assets/base/0x424d781e0163b5a42ca2f27d036c2d5c561022c3/42" ∧
    (resState (processSale envW cstEmpty sale6)).events = [("0xh", true)] := by
  exact ⟨by decide, by decide⟩

/-- C6 amended: the formatter returns null exactly when formatting raises
(e.g. a JSON `null` price value), not for merely-absent defaulted fields;
and whenever it returns null for a record whose token extraction succeeds,
that record is skipped and the cycle continues with the remaining records,
publishing nothing for it. -/
theorem format_null_skip (env : Env) (st : CState) (sale : PySale) (rest : List PySale)
    (tok : TokenObj) (htok : getTokenField sale.token = .ok tok)
    (hfmt : formatSaleMessage env.target env.outs sale = none) :
    processSale env st sale = .ok st ∧
    processCycle env st (sale :: rest) = processCycle env st rest := by
  have h0 : processSale env st sale = .ok st := by
    unfold processSale
    by_cases hdup : saleIdOf sale ∈ st.processed
    · rw [if_pos hdup]
    · rw [if_neg hdup, htok]
      dsimp only
      by_cases hcm : contractReject env.target tok.contract = true
      · rw [if_pos hcm]
      · rw [if_neg hcm, hfmt]
  exact ⟨h0, by simp [processCycle, h0]⟩

theorem format_null_skip_witness :
    (formatSaleMessage envW.target envW.outs saleNullPrice = none) ∧
    processSale envW cstEmpty saleNullPrice = .ok cstEmpty ∧
    processCycle envW cstEmpty [saleNullPrice] = processCycle envW cstEmpty [] :=
  ⟨rfl, format_null_skip envW cstEmpty saleNullPrice []
    { tokenId := some "1", contract := some defaultContract } rfl rfl⟩

/-- C7 counterexample: a response holding one contract-matching fill with an
unparseable creation time and one with a parseable creation time yields NO
records at all — the strategy aborts (in fact before the timestamp is even
computed) instead of producing a record for the good fill with the bad one
falling back to the current time. -/
theorem fills_timestamp_cx :
    pyFromIsoformat (replaceZ "not-a-date") = none ∧
    (pyFromIsoformat (replaceZ "2024-05-01T10:00:00Z")).isSome = true ∧
    convertFills "0xabc" 1000 [fillBadDate, fillGoodDate] = .error () ∧
    fillsStrategy "0xabc" 1000 [fillBadDate, fillGoodDate] = [] := by
  exact ⟨rfl, rfl, rfl, rfl⟩

/-- C7 amended: converting any fill raises before its timestamp expression is
evaluated (the record construction reads the undefined name
`COLLECTION_SLUG`), so no synthesized record ever carries a parsed or
fallback timestamp, and any response containing a contract-matching fill —
whatever its creation time — produces no records at all. -/
theorem fills_timestamp_amended (target : String) (now : Int) (f : Fill) :
    buildFillSale now f = .error () ∧
    (∀ fills : List Fill, f ∈ fills → f.contract = some target →
      fillsStrategy target now fills = [] ∧ convertFills target now fills = .error ()) :=
  ⟨buildFillSale_err now f,
   fun fills hmem hc =>
    ⟨fillsStrategy_empty target now fills, convertFills_match_err target now fills ⟨f, hmem, hc⟩⟩⟩

theorem fills_timestamp_amended_witness :
    buildFillSale 1000 fillGoodDate = .error () ∧
    fillsStrategy "0xabc" 1000 [fillGoodDate] = [] ∧
    convertFills "0xabc" 1000 [fillGoodDate] = .error () :=
  ⟨(fills_timestamp_amended "0xabc" 1000 fillGoodDate).1,
   ((fills_timestamp_amended "0xabc" 1000 fillGoodDate).2 [fillGoodDate]
      (List.mem_singleton.mpr rfl) rfl).1,
   ((fills_timestamp_amended "0xabc" 1000 fillGoodDate).2 [fillGoodDate]
      (List.mem_singleton.mpr rfl) rfl).2⟩

/-- C8: the Dedup Store (in-memory and persisted) is appended to exactly when
the publish invocation for this record succeeded; on a failed publish, or
when no publish happened, both are left unchanged, so the record stays
eligible for retry on the next poll cycle. -/
theorem publish_success_persist (env : Env) (st : CState) (sale : PySale)
    (hsv : st.saved = st.processed) :
    ((resState (processSale env st sale)).events = st.events ++ [(saleIdOf sale, true)] →
      (resState (processSale env st sale)).saved = st.processed ++ [saleIdOf sale] ∧
      (resState (processSale env st sale)).processed = (resState (processSale env st sale)).saved) ∧
    ((resState (processSale env st sale)).events = st.events →
      (resState (processSale env st sale)).saved = st.saved ∧
      (resState (processSale env st sale)).processed = st.processed) ∧
    ((resState (processSale env st sale)).events = st.events ++ [(saleIdOf sale, false)] →
      (resState (processSale env st sale)).saved = st.saved ∧
      (resState (processSale env st sale)).processed = st.processed) ∧
    (((resState (processSale env st sale)).saved ≠ st.saved ∨
      (resState (processSale env st sale)).processed ≠ st.processed) →
      (resState (processSale env st sale)).events = st.events ++ [(saleIdOf sale, true)]) := by
  rcases processSale_char env st sale with h1 | h1 | ⟨hnot, h1 | h1⟩ <;> rw [h1] <;> dsimp only [resState]
  · refine ⟨fun he => absurd he (evs_ne_append_singleton _ _), fun _ => ⟨rfl, rfl⟩,
      fun he => absurd he (evs_ne_append_singleton _ _), ?_⟩
    rintro (hne | hne) <;> exact absurd rfl hne
  · refine ⟨fun he => absurd he (evs_ne_append_singleton _ _), fun _ => ⟨rfl, rfl⟩,
      fun he => absurd he (evs_ne_append_singleton _ _), ?_⟩
    rintro (hne | hne) <;> exact absurd rfl hne
  · refine ⟨?_, ?_, fun _ => ⟨rfl, rfl⟩, ?_⟩
    · intro he
      have := append_singleton_inj he
      simp at this
    · intro he
      exact absurd he.symm (evs_ne_append_singleton _ _)
    · rintro (hne | hne) <;> exact absurd rfl hne
  · refine ⟨fun _ => ⟨hsv ▸ rfl, rfl⟩, ?_, ?_, fun _ => rfl⟩
    · intro he
      exact absurd he.symm (evs_ne_append_singleton _ _)
    · intro he
      have := append_singleton_inj he
      simp at this

theorem publish_success_persist_witness :
    (cstEmpty.saved = cstEmpty.processed) ∧
    (((resState (processSale envW cstEmpty saleW)).events = cstEmpty.events ++ [(saleIdOf saleW, true)] →
      (resState (processSale envW cstEmpty saleW)).saved = cstEmpty.processed ++ [saleIdOf saleW] ∧
      (resState (processSale envW cstEmpty saleW)).processed = (resState (processSale envW cstEmpty saleW)).saved) ∧
    ((resState (processSale envW cstEmpty saleW)).events = cstEmpty.events →
      (resState (processSale envW cstEmpty saleW)).saved = cstEmpty.saved ∧
      (resState (processSale envW cstEmpty saleW)).processed = cstEmpty.processed) ∧
    ((resState (processSale envW cstEmpty saleW)).events = cstEmpty.events ++ [(saleIdOf saleW, false)] →
      (resState (processSale envW cstEmpty saleW)).saved = cstEmpty.saved ∧
      (resState (processSale envW cstEmpty saleW)).processed = cstEmpty.processed) ∧
    (((resState (processSale envW cstEmpty saleW)).saved ≠ cstEmpty.saved ∨
      (resState (processSale envW cstEmpty saleW)).processed ≠ cstEmpty.processed) →
      (resState (processSale envW cstEmpty saleW)).events = cstEmpty.events ++ [(saleIdOf saleW, true)])) :=
  ⟨rfl, publish_success_persist envW cstEmpty saleW rfl⟩

/-- C9: the formatter returns null whenever the record's token contract is a
non-empty string differing case-insensitively from the target; when the
contract is absent or matches case-insensitively, the rejection step does
not fire and the result is that of the rest of the formatting pipeline. -/
theorem contract_check_formatter (target : String) (outs : List PriceOutcome) (sale : PySale)
    (tok : TokenObj) (htok : getTokenField sale.token = .ok tok) :
    (∀ c, tok.contract = some c → c ≠ "" → lowerStr c ≠ lowerStr target →
      formatSaleMessage target outs sale = none) ∧
    (tok.contract = none → formatSaleMessage target outs sale = formatAfterCheck outs sale tok) ∧
    (∀ c, tok.contract = some c → lowerStr c = lowerStr target →
      formatSaleMessage target outs sale = formatAfterCheck outs sale tok) := by
  refine ⟨?_, ?_, ?_⟩
  · intro c hc hne hl
    unfold formatSaleMessage
    rw [htok]
    dsimp only
    rw [if_pos (by simp [contractReject, hc, hne, hl])]
  · intro hc
    unfold formatSaleMessage
    rw [htok]
    dsimp only
    rw [if_neg (by simp [contractReject, hc])]
  · intro c hc hl
    unfold formatSaleMessage
    rw [htok]
    dsimp only
    rw [if_neg (by simp [contractReject, hc, hl])]

theorem contract_check_formatter_witness :
    formatSaleMessage defaultContract [.resp 200 (.ethereum 2000)] saleWrongContract = none :=
  (contract_check_formatter defaultContract [.resp 200 (.ethereum 2000)] saleWrongContract
    { tokenId := some "3", contract := some "0xdeadbeef" } rfl).1
    "0xdeadbeef" rfl (by decide) (by decide)

/-- C10: a poll cycle started from a duplicate-free loaded list keeps the
in-memory and persisted lists duplicate-free — an id is appended only after
the same-cycle membership check found it absent, even when one discovery
batch contains the same `orderHash` twice. -/
theorem store_nodup_preserved (env : Env) (st : CState) (sales : List PySale)
    (hsv : st.saved = st.processed) (hnd : st.processed.Nodup) :
    (resState (processCycle env st sales)).processed.Nodup ∧
    (resState (processCycle env st sales)).saved = (resState (processCycle env st sales)).processed := by
  have hN := Ninv_cycle env sales st ⟨hsv, hnd⟩
  exact ⟨hN.2, hN.1⟩

theorem store_nodup_preserved_witness :
    ((⟨["0xaa"], ["0xaa"], []⟩ : CState).saved = (⟨["0xaa"], ["0xaa"], []⟩ : CState).processed) ∧
    (resState (processCycle envW ⟨["0xaa"], ["0xaa"], []⟩ [saleW, saleW])).processed.Nodup ∧
    (resState (processCycle envW ⟨["0xaa"], ["0xaa"], []⟩ [saleW, saleW])).saved =
      (resState (processCycle envW ⟨["0xaa"], ["0xaa"], []⟩ [saleW, saleW])).processed :=
  ⟨rfl, store_nodup_preserved envW ⟨["0xaa"], ["0xaa"], []⟩ [saleW, saleW] rfl (by decide)⟩
